import Mathlib

/-!
# Quote calculator of `script.js`: pricing engine and wizard

A shallow embedding of the quote calculator section of `src/script.js`
(`PRICING`, `collectData`, `calculateQuote`, `showResult`, `resetQuote`,
`showStep` and the click handlers of the Next / Back buttons).

JavaScript numbers are IEEE-754 binary64 values.  Every finite binary64 value
is a rational number, so a number is modelled by the rational it denotes and
every arithmetic operation is the exact operation followed by the rounding
`fl` (round to nearest, ties to even, 53 significant bits).  The exponent
range of `fl` is not bounded; it agrees with binary64 on every value whose
magnitude is `0` or lies between `2 ^ (-1022)` and `2 ^ 1024`, which covers
everything a quote over a JavaScript array (fewer than `2 ^ 32` elements) can
produce.

The values of the inputs are the enumerated ones of the form, so that every
lookup in `PRICING` finds a number.  The elements the script looks up by id
(`quoteForm`, `quoteResult`, `quoteAmount`, `quoteBreakdown` and the buttons)
are taken to be present.  Of the page only what the handlers read or decide on
is kept: the checked inputs, whether the form and the result are shown, the
amount the animation runs towards and the lines of the breakdown.  The markup
of the form is not among the sources: the events by which the user checks and
unchecks its inputs follow the specification.
-/

namespace Jessie

/-! ## JavaScript numbers -/

/-- Nearest integer to `q`, a tie going to the even neighbour. -/
def roundHalfEven (q : ℚ) : ℤ :=
  let f := ⌊q⌋
  let r := q - f
  if r < 1 / 2 then f
  else if 1 / 2 < r then f + 1
  else if f % 2 = 0 then f else f + 1

/-- The binary64 rounding of the rational `x`: with `2 ^ e ≤ |x| < 2 ^ (e + 1)`
the result is the multiple of `2 ^ (e - 52)` nearest to `x`, ties to even. -/
def fl (x : ℚ) : ℚ :=
  if x = 0 then 0
  else
    let u : ℚ := 2 ^ (Int.log 2 |x| - 52)
    roundHalfEven (x / u) * u

/-- The JavaScript product `a * b` of two numbers. -/
def jsMul (a b : ℚ) : ℚ := fl (a * b)

/-- The JavaScript sum `a + b` of two numbers. -/
def jsAdd (a b : ℚ) : ℚ := fl (a + b)

/-- The JavaScript `v || d` for a number `v` that is present: `0` is falsy. -/
def jsOr (v d : ℚ) : ℚ := if v = 0 then d else v

/-- The `Math.round` of JavaScript: nearest integer, a tie going up. -/
def Math.round (x : ℚ) : ℤ := ⌊x + 1 / 2⌋

/-- A JavaScript array has fewer than `2 ^ 32` elements. -/
def maxArrayLength : ℕ := 2 ^ 32

/-! ## Domain values -/

/-- The values of the `serviceType` radio inputs. -/
inductive ServiceType
  | airbnb | staging | refresh
  deriving DecidableEq, Repr

/-- The values of the `propertySize` radio inputs (`studio`, `2bed`, `3bed`, `4bed`). -/
inductive PropertySize
  | studio | bed2 | bed3 | bed4
  deriving DecidableEq, Repr

/-- The values of the `packageLevel` radio inputs. -/
inductive PackageLevel
  | essential | premium | turnkey
  deriving DecidableEq, Repr

/-- The values of the `extras` checkboxes. -/
inductive ExtraKind
  | photography | listing | garden | express
  deriving DecidableEq, Repr

/-! ## The pricing matrix `PRICING` -/

/-- The entries `PRICING[serviceType][propertySize]`. -/
def PRICING.base : ServiceType → PropertySize → ℚ
  | .airbnb, .studio => 1800
  | .airbnb, .bed2 => 3200
  | .airbnb, .bed3 => 5000
  | .airbnb, .bed4 => 7500
  | .staging, .studio => 1200
  | .staging, .bed2 => 2200
  | .staging, .bed3 => 3500
  | .staging, .bed4 => 5000
  | .refresh, .studio => 600
  | .refresh, .bed2 => 1100
  | .refresh, .bed3 => 1800
  | .refresh, .bed4 => 2800

/-- The entries `PRICING.packages[packageLevel]`.  The literals `1.0` and `1.5`
are binary64 values; the literal `2.2` is not and denotes its rounding. -/
def PRICING.packages : PackageLevel → ℚ
  | .essential => 1
  | .premium => 3 / 2
  | .turnkey => fl (11 / 5)

/-- The entries `PRICING.extras[extra]`. -/
def PRICING.extras : ExtraKind → ℚ
  | .photography => 350
  | .listing => 150
  | .garden => 450
  | .express => 0

/-- The entry `PRICING.expressMultiplier`, the binary64 value `1.25`. -/
def PRICING.expressMultiplier : ℚ := 5 / 4

/-! ## Quote data and `calculateQuote` -/

/-- The object `quoteData`; `none` is `null`. -/
structure QuoteData where
  serviceType : Option ServiceType
  propertySize : Option PropertySize
  packageLevel : Option PackageLevel
  extras : List ExtraKind
  deriving DecidableEq, Repr

/-- One turn of the `forEach` callback of `calculateQuote` over the pair
`(extrasTotal, hasExpress)`. -/
def calculateQuote.visit (acc : ℚ × Bool) (extra : ExtraKind) : ℚ × Bool :=
  if extra = ExtraKind.express then (acc.1, true)
  else (jsAdd acc.1 (jsOr (PRICING.extras extra) 0), acc.2)

/-- The value of the variable `subtotal` of `calculateQuote` when it reaches
`Math.round`, for a selection with all three fields set. -/
def calculateQuote.subtotal (serviceType : ServiceType) (propertySize : PropertySize)
    (packageLevel : PackageLevel) (extras : List ExtraKind) : ℚ :=
  let base := jsOr (PRICING.base serviceType propertySize) 0
  let packageMultiplier := jsOr (PRICING.packages packageLevel) 1
  let subtotal := jsMul base packageMultiplier
  let r := extras.foldl calculateQuote.visit (0, false)
  let subtotal := jsAdd subtotal r.1
  if r.2 then jsMul subtotal PRICING.expressMultiplier else subtotal

/-- The function `calculateQuote`, reading the selection `quoteData`. -/
def calculateQuote (quoteData : QuoteData) : ℤ :=
  match quoteData.serviceType, quoteData.propertySize, quoteData.packageLevel with
  | some serviceType, some propertySize, some packageLevel =>
    Math.round (calculateQuote.subtotal serviceType propertySize packageLevel quoteData.extras)
  | _, _, _ => 0

/-! ## The wizard: form, state and handlers -/

/-- The constant `totalSteps`. -/
def totalSteps : ℕ := 4

/-- The checked inputs of the form `quoteForm`: the checked radio input of each
of the three groups, if any, and the values of the checked `extras` checkboxes
in document order. -/
structure QuoteForm where
  serviceType : Option ServiceType
  propertySize : Option PropertySize
  packageLevel : Option PackageLevel
  extras : List ExtraKind
  deriving DecidableEq, Repr

/-- The label of a breakdown line, as the expression that builds it. -/
inductive Label
  /-- The text `getServiceLabel(serviceType)`, a dash and `getSizeLabel(propertySize)`. -/
  | serviceSize (serviceType : ServiceType) (propertySize : Option PropertySize)
  /-- The text `getPackageLabel(packageLevel)` followed by `(×packageMultiplier)`. -/
  | package (packageLevel : Option PackageLevel) (packageMultiplier : ℚ)
  /-- The text `getExtraLabel(extra)`. -/
  | extra (extra : ExtraKind)
  /-- The text `Estimated Total`. -/
  | total
  deriving DecidableEq, Repr

/-- The value cell of a breakdown line: a pound amount or the text `Applied`. -/
inductive LineValue
  | amount (v : ℚ)
  | applied
  deriving DecidableEq, Repr

/-- One `breakdown-item` of the markup assigned to `quoteBreakdown.innerHTML`. -/
structure LineItem where
  label : Label
  value : LineValue
  deriving DecidableEq, Repr

/-- The state of the calculator: the variables `currentStep` and `quoteData`, the
checked inputs of `quoteForm`, whether the form is hidden (`display: none`),
whether `quoteResult` carries the class `quote__result--visible`, the amount
`animateQuoteAmount` was last started towards, and the lines last written to
`quoteBreakdown`. -/
structure Wizard where
  currentStep : ℕ
  quoteData : QuoteData
  quoteForm : QuoteForm
  formHidden : Bool
  resultVisible : Bool
  quoteAmount : Option ℤ
  quoteBreakdown : List LineItem
  deriving DecidableEq, Repr

/-- What a click on the Next button ended in: the button shaken after a failed
validation, a step shown, the result shown, or a `TypeError` thrown while the
breakdown was built. -/
inductive Outcome
  | shake | stepped | result | threw
  deriving DecidableEq, Repr

/-- The state when the script has loaded. -/
def Wizard.init : Wizard :=
  { currentStep := 1
    quoteData := ⟨none, none, none, []⟩
    quoteForm := ⟨none, none, none, []⟩
    formHidden := false
    resultVisible := false
    quoteAmount := none
    quoteBreakdown := [] }

/-- The function `showStep`; of its writes only the one to `currentStep` is
kept, the others set classes, the progress bar and the button texts. -/
def showStep (w : Wizard) (step : ℕ) : Wizard :=
  { w with currentStep := step }

/-- The function `collectData`: `quoteData` is overwritten with the checked inputs. -/
def collectData (w : Wizard) : Wizard :=
  { w with quoteData :=
      { serviceType := w.quoteForm.serviceType
        propertySize := w.quoteForm.propertySize
        packageLevel := w.quoteForm.packageLevel
        extras := w.quoteForm.extras } }

/-- The lines `showResult` builds once `PRICING[serviceType]` is an object. -/
def showResult.lines (serviceType : ServiceType) (propertySize : Option PropertySize)
    (packageLevel : Option PackageLevel) (extras : List ExtraKind) (total : ℤ) :
    List LineItem :=
  let base : ℚ := match propertySize with
    | some p => jsOr (PRICING.base serviceType p) 0
    | none => 0
  let packageMultiplier : ℚ := match packageLevel with
    | some k => jsOr (PRICING.packages k) 1
    | none => 1
  let packagedBase := jsMul base packageMultiplier
  [⟨Label.serviceSize serviceType propertySize, LineValue.amount base⟩]
  ++ (if packageMultiplier ≠ 1 then
        [⟨Label.package packageLevel packageMultiplier,
          LineValue.amount (Math.round packagedBase)⟩]
      else [])
  ++ extras.filterMap (fun extra =>
        if extra ≠ ExtraKind.express then
          some ⟨Label.extra extra, LineValue.amount (PRICING.extras extra)⟩
        else none)
  ++ (if ExtraKind.express ∈ extras then
        [⟨Label.extra ExtraKind.express, LineValue.applied⟩]
      else [])
  ++ [⟨Label.total, LineValue.amount total⟩]

/-- The function `showResult`.  With `serviceType` null the lookup
`PRICING[serviceType][propertySize]` throws after the result was made visible
and the amount started, and `quoteBreakdown` keeps its content. -/
def showResult (w : Wizard) : Wizard × Outcome :=
  let total := calculateQuote w.quoteData
  let w1 := { w with formHidden := true, resultVisible := true, quoteAmount := some total }
  match w.quoteData.serviceType with
  | none => (w1, Outcome.threw)
  | some serviceType =>
    let lines := showResult.lines serviceType w.quoteData.propertySize
      w.quoteData.packageLevel w.quoteData.extras total
    ({ w1 with quoteBreakdown := lines }, Outcome.result)

/-- The function `resetQuote`. -/
def resetQuote (w : Wizard) : Wizard :=
  showStep
    { w with
      currentStep := 1
      quoteData := ⟨none, none, none, []⟩
      quoteForm := ⟨none, none, none, []⟩
      formHidden := false
      resultVisible := false }
    1

/-- The click handler of `quoteNext` (the operation `advance`). -/
def quoteNextClick (w : Wizard) : Wizard × Outcome :=
  let w := collectData w
  if w.currentStep = 1 ∧ w.quoteData.serviceType = none then (w, Outcome.shake)
  else if w.currentStep = 2 ∧ w.quoteData.propertySize = none then (w, Outcome.shake)
  else if w.currentStep = 3 ∧ w.quoteData.packageLevel = none then (w, Outcome.shake)
  else if w.currentStep < totalSteps then (showStep w (w.currentStep + 1), Outcome.stepped)
  else showResult (collectData w)

/-- The click handler of `quotePrev` (the operation `retreat`). -/
def quotePrevClick (w : Wizard) : Wizard :=
  if w.currentStep > 1 then showStep w (w.currentStep - 1) else w

/-! ## The rules as the specification words them -/

/-- Spec, section 6: the tabulated base prices. -/
def specBasePrice : ServiceType → PropertySize → ℚ
  | .airbnb, .studio => 1800
  | .airbnb, .bed2 => 3200
  | .airbnb, .bed3 => 5000
  | .airbnb, .bed4 => 7500
  | .staging, .studio => 1200
  | .staging, .bed2 => 2200
  | .staging, .bed3 => 3500
  | .staging, .bed4 => 5000
  | .refresh, .studio => 600
  | .refresh, .bed2 => 1100
  | .refresh, .bed3 => 1800
  | .refresh, .bed4 => 2800

/-- Spec, section 6: the package multipliers `1.0`, `1.5`, `2.2` as exact decimals. -/
def specMultiplier : PackageLevel → ℚ
  | .essential => 1
  | .premium => 3 / 2
  | .turnkey => 11 / 5

/-- Spec, section 6: the flat fee of an extra; `express` has none. -/
def specExtraFee : ExtraKind → ℚ
  | .photography => 350
  | .listing => 150
  | .garden => 450
  | .express => 0

/-- Spec, section 4.2 step 4: the sum of the flat fees of the non-express extras. -/
def specFlatFees (extras : List ExtraKind) : ℚ :=
  ((extras.filter (fun e => e ≠ ExtraKind.express)).map specExtraFee).sum

/-- Spec, section 4.2 step 5: the express factor, `1.25` when express is selected. -/
def specExpressFactor (extras : List ExtraKind) : ℚ :=
  if ExtraKind.express ∈ extras then 5 / 4 else 1

/-- Spec, section 4.2 step 6: rounding to the nearest whole unit, a half going up. -/
def specRound (x : ℚ) : ℤ := ⌊x + 1 / 2⌋

/-- Spec, section 4.2 steps 2 to 6 in exact arithmetic: the express factor applied
after the flat fees, one rounding at the end. -/
def specTotal (serviceType : ServiceType) (propertySize : PropertySize)
    (packageLevel : PackageLevel) (extras : List ExtraKind) : ℤ :=
  specRound ((specBasePrice serviceType propertySize * specMultiplier packageLevel
    + specFlatFees extras) * specExpressFactor extras)

/-- Spec, section 4.2: whether the selection required at step `n` is set in the
form; step 4 requires none. -/
def specRequiredSet (n : ℕ) (f : QuoteForm) : Bool :=
  match n with
  | 1 => f.serviceType.isSome
  | 2 => f.propertySize.isSome
  | 3 => f.packageLevel.isSome
  | _ => true

/-! ## `calculateQuote` over an arbitrary pricing matrix -/

/-- The four parts of a pricing matrix such as `PRICING`. -/
structure PricingTable where
  base : ServiceType → PropertySize → ℚ
  packages : PackageLevel → ℚ
  extras : ExtraKind → ℚ
  expressMultiplier : ℚ

/-- The matrix `PRICING` as a value. -/
def PRICING.table : PricingTable :=
  { base := PRICING.base
    packages := PRICING.packages
    extras := PRICING.extras
    expressMultiplier := PRICING.expressMultiplier }

/-- The body of `calculateQuote` with every lookup in `PRICING` made in the
matrix `P`. -/
def calculateQuote.withTable (P : PricingTable) (quoteData : QuoteData) : ℤ :=
  match quoteData.serviceType, quoteData.propertySize, quoteData.packageLevel with
  | some serviceType, some propertySize, some packageLevel =>
    let base := jsOr (P.base serviceType propertySize) 0
    let packageMultiplier := jsOr (P.packages packageLevel) 1
    let subtotal := jsMul base packageMultiplier
    let r := quoteData.extras.foldl
      (fun (acc : ℚ × Bool) extra =>
        if extra = ExtraKind.express then (acc.1, true)
        else (jsAdd acc.1 (jsOr (P.extras extra) 0), acc.2))
      (0, false)
    let subtotal := jsAdd subtotal r.1
    Math.round (if r.2 then jsMul subtotal P.expressMultiplier else subtotal)
  | _, _, _ => 0

/-! ## The user acting on the form -/

/-- Modelled from the spec: the selection event of a service type.  The markup
of the form is not among the sources; checking a radio input of the group
`serviceType` leaves that value checked, and no event unchecks the group. -/
def chooseService (w : Wizard) (s : ServiceType) : Wizard :=
  { w with quoteForm := { w.quoteForm with serviceType := some s } }

/-- Modelled from the spec: the selection event of a property size, on the radio
inputs of the markup that is not among the sources. -/
def chooseSize (w : Wizard) (p : PropertySize) : Wizard :=
  { w with quoteForm := { w.quoteForm with propertySize := some p } }

/-- Modelled from the spec: the selection event of a package level, on the radio
inputs of the markup that is not among the sources. -/
def choosePackage (w : Wizard) (k : PackageLevel) : Wizard :=
  { w with quoteForm := { w.quoteForm with packageLevel := some k } }

/-- Modelled from the spec: `setExtras(kind, present)`, the checkbox of the markup
that is not among the sources being checked or unchecked; a value newly checked
comes last, the selection order of the spec. -/
def setExtras (w : Wizard) (kind : ExtraKind) (present : Bool) : Wizard :=
  { w with quoteForm := { w.quoteForm with
      extras :=
        if present then
          (if kind ∈ w.quoteForm.extras then w.quoteForm.extras
           else w.quoteForm.extras ++ [kind])
        else w.quoteForm.extras.filter (fun e => e ≠ kind) } }

/-- The operations of section 4.2 of the spec together with the selection events. -/
inductive Action
  | chooseService (s : ServiceType)
  | chooseSize (p : PropertySize)
  | choosePackage (k : PackageLevel)
  | setExtras (kind : ExtraKind) (present : Bool)
  | advance
  | retreat
  | reset
  deriving DecidableEq, Repr

/-- The state after one operation: `advance` is a click on Next, `retreat` a click
on Back, `reset` a call of `resetQuote`. -/
def Wizard.act (w : Wizard) : Action → Wizard
  | Action.chooseService s => chooseService w s
  | Action.chooseSize p => chooseSize w p
  | Action.choosePackage k => choosePackage w k
  | Action.setExtras kind present => setExtras w kind present
  | Action.advance => (quoteNextClick w).1
  | Action.retreat => quotePrevClick w
  | Action.reset => resetQuote w

/-- The state reached from the initial state by a sequence of operations. -/
def Wizard.run (actions : List Action) : Wizard :=
  actions.foldl Wizard.act Wizard.init

/-! ## Auxiliary definitions for the proofs -/

/-- A non-negative binary64 value: a natural significand below `2 ^ 53` scaled by a power of two. -/
def IsBinary64 (a : ℚ) : Prop := ∃ m : ℕ, ∃ k : ℤ, m < 2 ^ 53 ∧ a = m * 2 ^ k

/-- The flat fees as natural numbers. -/
def feeNat : ExtraKind → ℕ
  | .photography => 350
  | .listing => 150
  | .garden => 450
  | .express => 0

/-- The exact sum of the flat fees of the non-express extras, as a natural number. -/
def feeSum (extras : List ExtraKind) : ℕ :=
  ((extras.filter (fun e => e ≠ ExtraKind.express)).map feeNat).sum

/-- The exact product of base price and package multiplier, a whole number. -/
def packagedNat (s : ServiceType) (p : PropertySize) (k : PackageLevel) : ℕ :=
  match s, p with
  | .airbnb, .studio => match k with | .essential => 1800 | .premium => 2700 | .turnkey => 3960
  | .airbnb, .bed2 => match k with | .essential => 3200 | .premium => 4800 | .turnkey => 7040
  | .airbnb, .bed3 => match k with | .essential => 5000 | .premium => 7500 | .turnkey => 11000
  | .airbnb, .bed4 => match k with | .essential => 7500 | .premium => 11250 | .turnkey => 16500
  | .staging, .studio => match k with | .essential => 1200 | .premium => 1800 | .turnkey => 2640
  | .staging, .bed2 => match k with | .essential => 2200 | .premium => 3300 | .turnkey => 4840
  | .staging, .bed3 => match k with | .essential => 3500 | .premium => 5250 | .turnkey => 7700
  | .staging, .bed4 => match k with | .essential => 5000 | .premium => 7500 | .turnkey => 11000
  | .refresh, .studio => match k with | .essential => 600 | .premium => 900 | .turnkey => 1320
  | .refresh, .bed2 => match k with | .essential => 1100 | .premium => 1650 | .turnkey => 2420
  | .refresh, .bed3 => match k with | .essential => 1800 | .premium => 2700 | .turnkey => 3960
  | .refresh, .bed4 => match k with | .essential => 2800 | .premium => 4200 | .turnkey => 6160

/-- Whether a breakdown line is the line of an extra. -/
def LineItem.isExtra (item : LineItem) : Bool :=
  match item.label with
  | Label.extra _ => true
  | _ => false

/-- The invariant of the wizard: the step lies between 1 and 4, the inputs required
at the steps before the current one are checked, and no extra is checked twice. -/
def Wizard.Valid (w : Wizard) : Prop :=
  1 ≤ w.currentStep ∧ w.currentStep ≤ 4
  ∧ (2 ≤ w.currentStep → w.quoteForm.serviceType.isSome = true)
  ∧ (3 ≤ w.currentStep → w.quoteForm.propertySize.isSome = true)
  ∧ (4 ≤ w.currentStep → w.quoteForm.packageLevel.isSome = true)
  ∧ w.quoteForm.extras.Nodup


/-! ## Rounding lemmas -/

theorem floor_le_roundHalfEven (q : ℚ) : ⌊q⌋ ≤ roundHalfEven q := by
  unfold roundHalfEven
  simp only
  split_ifs <;> omega

theorem roundHalfEven_le_ceil (q : ℚ) : roundHalfEven q ≤ ⌈q⌉ := by
  unfold roundHalfEven
  simp only
  have hfl : (⌊q⌋ : ℚ) ≤ q := Int.floor_le q
  split_ifs with h1 h2 h3
  · exact Int.floor_le_ceil q
  · have : (⌊q⌋ : ℚ) < q := by linarith
    have h4 : ⌊q⌋ < ⌈q⌉ := by
      rw [Int.lt_ceil]; exact this
    omega
  · exact Int.floor_le_ceil q
  · have : (⌊q⌋ : ℚ) < q := by
      have : q - ⌊q⌋ = 1 / 2 := le_antisymm (not_lt.mp h2) (not_lt.mp h1)
      linarith
    have h4 : ⌊q⌋ < ⌈q⌉ := by
      rw [Int.lt_ceil]; exact this
    omega

theorem int_le_roundHalfEven {q : ℚ} {M : ℤ} (h : (M : ℚ) ≤ q) : M ≤ roundHalfEven q :=
  le_trans (Int.le_floor.mpr h) (floor_le_roundHalfEven q)

theorem roundHalfEven_le_int {q : ℚ} {M : ℤ} (h : q ≤ (M : ℚ)) : roundHalfEven q ≤ M :=
  le_trans (roundHalfEven_le_ceil q) (Int.ceil_le.mpr h)

/-- A binary64 value at or above `2 ^ e` is an integer multiple of `2 ^ (e - 52)`. -/
theorem binary64_div_ulp {m : ℕ} {k e : ℤ} (hk : e - 52 ≤ k) :
    ∃ M : ℤ, ((m : ℚ) * 2 ^ k) / 2 ^ (e - 52) = M := by
  obtain ⟨n, hn⟩ := Int.eq_ofNat_of_zero_le (by omega : 0 ≤ k - (e - 52))
  refine ⟨(m : ℤ) * 2 ^ n, ?_⟩
  have h2 : (2 : ℚ) ≠ 0 := by norm_num
  rw [mul_div_assoc, ← zpow_sub₀ h2, hn, zpow_natCast]
  push_cast
  rfl

theorem binary64_lt_zpow {m : ℕ} {k e : ℤ} (hm : m < 2 ^ 53) (hk : k < e - 52) :
    (m : ℚ) * 2 ^ k < 2 ^ e := by
  have h2 : (2 : ℚ) ≠ 0 := by norm_num
  have hpos : (0 : ℚ) < 2 ^ k := zpow_pos (by norm_num) k
  have hm' : (m : ℚ) < 2 ^ (53 : ℕ) := by exact_mod_cast hm
  calc (m : ℚ) * 2 ^ k < 2 ^ (53 : ℕ) * 2 ^ k := mul_lt_mul_of_pos_right hm' hpos
    _ = 2 ^ (53 + k) := by rw [zpow_add₀ h2]; norm_num
    _ ≤ 2 ^ e := by
        apply zpow_le_zpow_right₀ (by norm_num); omega

theorem fl_of_pos {x : ℚ} (hx : 0 < x) :
    fl x = roundHalfEven (x / 2 ^ (Int.log 2 x - 52)) * 2 ^ (Int.log 2 x - 52) := by
  unfold fl
  rw [if_neg hx.ne', abs_of_pos hx]

theorem le_fl {a x : ℚ} (ha : IsBinary64 a) (hax : a ≤ x) (hx : 0 < x) : a ≤ fl x := by
  obtain ⟨m, k, hm, rfl⟩ := ha
  rw [fl_of_pos hx]
  set e := Int.log 2 x with he
  have hu : (0 : ℚ) < 2 ^ (e - 52) := zpow_pos (by norm_num) _
  have he1 : (2 : ℚ) ^ e ≤ x := Int.zpow_log_le_self (by norm_num) hx
  rw [← div_le_iff₀ hu]
  have key : ∃ M : ℤ, ((m : ℚ) * 2 ^ k) / 2 ^ (e - 52) ≤ M ∧ (M : ℚ) ≤ x / 2 ^ (e - 52) := by
    by_cases hk : e - 52 ≤ k
    · obtain ⟨M, hM⟩ := binary64_div_ulp (m := m) hk
      refine ⟨M, hM.le, ?_⟩
      rw [← hM]
      exact div_le_div_of_nonneg_right hax hu.le
    · have hlt := binary64_lt_zpow (e := e) hm (not_le.mp hk)
      have h52 : (2 : ℚ) ^ e / 2 ^ (e - 52) = ((2 ^ 52 : ℤ) : ℚ) := by
        rw [← zpow_sub₀ (by norm_num)]
        norm_num
      refine ⟨2 ^ 52, ?_, ?_⟩
      · rw [← h52]; exact div_le_div_of_nonneg_right hlt.le hu.le
      · rw [← h52]; exact div_le_div_of_nonneg_right he1 hu.le
  obtain ⟨M, h1, h2⟩ := key
  calc ((m : ℚ) * 2 ^ k) / 2 ^ (e - 52) ≤ M := h1
    _ ≤ roundHalfEven (x / 2 ^ (e - 52)) := by exact_mod_cast int_le_roundHalfEven h2

theorem fl_le {b x : ℚ} (hb : IsBinary64 b) (hxb : x ≤ b) (hx : 0 < x) : fl x ≤ b := by
  obtain ⟨m, k, hm, rfl⟩ := hb
  rw [fl_of_pos hx]
  set e := Int.log 2 x with he
  have hu : (0 : ℚ) < 2 ^ (e - 52) := zpow_pos (by norm_num) _
  have he1 : (2 : ℚ) ^ e ≤ x := Int.zpow_log_le_self (by norm_num) hx
  rw [← le_div_iff₀ hu]
  by_cases hk : e - 52 ≤ k
  · obtain ⟨M, hM⟩ := binary64_div_ulp (m := m) hk
    rw [hM]
    have : x / 2 ^ (e - 52) ≤ (M : ℚ) := by
      rw [← hM]; exact div_le_div_of_nonneg_right hxb hu.le
    exact_mod_cast roundHalfEven_le_int this
  · have hlt := binary64_lt_zpow (e := e) hm (not_le.mp hk)
    linarith

theorem fl_eq_self {a : ℚ} (ha : IsBinary64 a) : fl a = a := by
  have h0 : 0 ≤ a := by
    obtain ⟨m, k, _, rfl⟩ := ha
    positivity
  rcases h0.eq_or_lt with h | h
  · rw [← h]; simp [fl]
  · exact le_antisymm (fl_le ha le_rfl h) (le_fl ha le_rfl h)

theorem isBinary64_nat_div (n j : ℕ) (h : n < 2 ^ 53) : IsBinary64 ((n : ℚ) / 2 ^ j) := by
  refine ⟨n, -(j : ℤ), h, ?_⟩
  rw [zpow_neg, zpow_natCast, div_eq_mul_inv]

theorem isBinary64_nat (n : ℕ) (h : n < 2 ^ 53) : IsBinary64 (n : ℚ) := by
  simpa using isBinary64_nat_div n 0 h

theorem log_eleven_fifths : Int.log 2 ((11 : ℚ) / 5) = 1 := by
  apply le_antisymm
  · have : Int.log 2 ((11 : ℚ) / 5) < 2 := by
      rw [← Int.lt_zpow_iff_log_lt (by norm_num) (by norm_num)]
      norm_num
    omega
  · rw [← Int.zpow_le_iff_le_log (by norm_num) (by norm_num)]
    norm_num

/-- The literal `2.2` denotes the binary64 value `2476979795053773 / 2 ^ 50`. -/
theorem fl_eleven_fifths : fl (11 / 5) = 2476979795053773 / 2 ^ 50 := by
  rw [fl_of_pos (by norm_num), log_eleven_fifths]
  have hf : ⌊((11 : ℚ) / 5) / 2 ^ ((1 : ℤ) - 52)⌋ = 4953959590107545 := by
    rw [Int.floor_eq_iff]
    norm_num
  unfold roundHalfEven
  simp only [hf]
  norm_num

/-! ## The extras loop -/

theorem pricing_extras_eq (e : ExtraKind) : PRICING.extras e = (feeNat e : ℚ) := by
  cases e <;> simp [PRICING.extras, feeNat]

theorem specExtraFee_eq (e : ExtraKind) : specExtraFee e = (feeNat e : ℚ) := by
  cases e <;> simp [specExtraFee, feeNat]

theorem feeNat_le (e : ExtraKind) : feeNat e ≤ 450 := by
  cases e <;> simp [feeNat]

theorem jsOr_zero (v : ℚ) : jsOr v 0 = v := by
  unfold jsOr
  split_ifs with h
  · exact h.symm
  · rfl

theorem feeSum_cons (e : ExtraKind) (l : List ExtraKind) :
    feeSum (e :: l) = feeNat e + feeSum l := by
  cases e <;> simp [feeSum, feeNat, List.filter_cons]

theorem feeSum_le (l : List ExtraKind) : feeSum l ≤ 450 * l.length := by
  induction l with
  | nil => simp [feeSum]
  | cons e l ih =>
    rw [feeSum_cons, List.length_cons]
    have := feeNat_le e
    omega

theorem specFlatFees_eq (l : List ExtraKind) : specFlatFees l = (feeSum l : ℚ) := by
  unfold specFlatFees feeSum
  induction l with
  | nil => simp
  | cons e l ih =>
    cases e <;> simp [List.filter_cons, specExtraFee, feeNat] at ih ⊢ <;> rw [ih]

/-- The loop over `extras` adds up the flat fees exactly while the total stays
below `2 ^ 53`, and records whether `express` occurs. -/
theorem foldl_visit (l : List ExtraKind) (a : ℕ) (b : Bool)
    (h : a + 450 * l.length < 2 ^ 53) :
    l.foldl calculateQuote.visit ((a : ℚ), b)
      = (((a + feeSum l : ℕ) : ℚ), b || decide (ExtraKind.express ∈ l)) := by
  induction l generalizing a b with
  | nil => simp [feeSum]
  | cons e l ih =>
    rw [List.foldl_cons, List.length_cons] at *
    by_cases he : e = ExtraKind.express
    · subst he
      have hv : calculateQuote.visit ((a : ℚ), b) ExtraKind.express = ((a : ℚ), true) := by
        simp [calculateQuote.visit]
      rw [hv, ih a true (by omega), feeSum_cons]
      simp [feeNat]
    · have hfee := feeNat_le e
      have hv : calculateQuote.visit ((a : ℚ), b) e = (((a + feeNat e : ℕ) : ℚ), b) := by
        unfold calculateQuote.visit
        rw [if_neg he, jsOr_zero, pricing_extras_eq]
        simp only [jsAdd]
        have : ((a : ℚ) + (feeNat e : ℚ)) = ((a + feeNat e : ℕ) : ℚ) := by push_cast; rfl
        rw [this, fl_eq_self (isBinary64_nat _ (by omega))]
      rw [hv, ih (a + feeNat e) b (by omega), feeSum_cons]
      have hne : ¬ (ExtraKind.express = e) := fun h => he h.symm
      simp [hne, Nat.add_assoc]

/-! ## From the binary64 computation to the exact formula -/

theorem spec_packaged (s : ServiceType) (p : PropertySize) (k : PackageLevel) :
    specBasePrice s p * specMultiplier k = (packagedNat s p k : ℚ) := by
  cases s <;> cases p <;> cases k <;> norm_num [specBasePrice, specMultiplier, packagedNat]

theorem packagedNat_le (s : ServiceType) (p : PropertySize) (k : PackageLevel) :
    packagedNat s p k ≤ 16500 := by
  cases s <;> cases p <;> cases k <;> simp [packagedNat]

theorem packagedNat_pos (s : ServiceType) (p : PropertySize) (k : PackageLevel) :
    0 < packagedNat s p k := by
  cases s <;> cases p <;> cases k <;> simp [packagedNat]

/-- Rounding keeps a value between a whole number and that number plus an eighth. -/
theorem fl_between (N : ℕ) (hN : N < 2 ^ 49) (x : ℚ) (hpos : 0 < x)
    (h1 : (N : ℚ) ≤ x) (h2 : x ≤ N + 1 / 8) : (N : ℚ) ≤ fl x ∧ fl x ≤ N + 1 / 8 := by
  constructor
  · exact le_fl (isBinary64_nat N (by omega)) h1 hpos
  · have hb : IsBinary64 ((N : ℚ) + 1 / 8) := by
      have := isBinary64_nat_div (8 * N + 1) 3 (by omega)
      have e : (((8 * N + 1 : ℕ) : ℚ) / 2 ^ 3) = (N : ℚ) + 1 / 8 := by
        push_cast; ring
      rwa [e] at this
    exact fl_le hb h2 hpos

/-- The product `base * packageMultiplier` computed in binary64 is at least the
exact product and exceeds it by at most an eighth. -/
theorem packaged_between (s : ServiceType) (p : PropertySize) (k : PackageLevel) :
    (packagedNat s p k : ℚ) ≤ jsMul (jsOr (PRICING.base s p) 0) (jsOr (PRICING.packages k) 1)
    ∧ jsMul (jsOr (PRICING.base s p) 0) (jsOr (PRICING.packages k) 1)
        ≤ packagedNat s p k + 1 / 8 := by
  unfold jsMul
  apply fl_between _ (lt_of_le_of_lt (packagedNat_le s p k) (by norm_num))
  all_goals
    cases s <;> cases p <;> cases k <;>
      norm_num [PRICING.base, PRICING.packages, packagedNat, jsOr, fl_eleven_fifths]

/-- Rounding half up absorbs an excess of at most `5 / 32` over a multiple of a quarter. -/
theorem round_quarters (T : ℕ) (y : ℚ) (h1 : (T : ℚ) / 4 ≤ y) (h2 : y ≤ (T : ℚ) / 4 + 5 / 32) :
    Math.round y = ⌊(T : ℚ) / 4 + 1 / 2⌋ := by
  have hT : ((T + 2) / 4 * 4 + (T + 2) % 4 : ℕ) = T + 2 := Nat.div_add_mod' (T + 2) 4
  have hr : (T + 2) % 4 < 4 := Nat.mod_lt _ (by norm_num)
  have hrq : (((T + 2) % 4 : ℕ) : ℚ) ≤ 3 := by
    have : (T + 2) % 4 ≤ 3 := by omega
    exact_mod_cast this
  have hr0 : (0 : ℚ) ≤ (((T + 2) % 4 : ℕ) : ℚ) := Nat.cast_nonneg _
  have hTq : (((T + 2) / 4 : ℕ) : ℚ) * 4 + (((T + 2) % 4 : ℕ) : ℚ) = (T : ℚ) + 2 := by
    exact_mod_cast hT
  have e1 : ⌊(T : ℚ) / 4 + 1 / 2⌋ = (((T + 2) / 4 : ℕ) : ℤ) := by
    rw [Int.floor_eq_iff, Int.cast_natCast]
    constructor <;> linarith
  have e2 : ⌊y + 1 / 2⌋ = (((T + 2) / 4 : ℕ) : ℤ) := by
    rw [Int.floor_eq_iff, Int.cast_natCast]
    constructor <;> linarith
  unfold Math.round
  rw [e1, e2]

/-- The value handed to `Math.round` lies between the exact pre-rounding value of
the specification and that value plus `5 / 32`. -/
theorem subtotal_between (s : ServiceType) (p : PropertySize) (k : PackageLevel)
    (extras : List ExtraKind) (hlen : extras.length < maxArrayLength) :
    ((packagedNat s p k + feeSum extras : ℕ) : ℚ) * specExpressFactor extras
        ≤ calculateQuote.subtotal s p k extras
    ∧ calculateQuote.subtotal s p k extras
        ≤ ((packagedNat s p k + feeSum extras : ℕ) : ℚ) * specExpressFactor extras + 5 / 32 := by
  have hlen' : extras.length < 2 ^ 32 := hlen
  have hS := feeSum_le extras
  have hN := packagedNat_le s p k
  have hNpos := packagedNat_pos s p k
  obtain ⟨b1, b2⟩ := packaged_between s p k
  have hfold := foldl_visit extras 0 false (by omega)
  rw [Nat.cast_zero, Nat.zero_add, Bool.false_or] at hfold
  unfold calculateQuote.subtotal
  simp only [hfold]
  set x0 := jsMul (jsOr (PRICING.base s p) 0) (jsOr (PRICING.packages k) 1) with hx0
  have hNq : (0 : ℚ) < (packagedNat s p k : ℚ) := by exact_mod_cast hNpos
  have hSq : (0 : ℚ) ≤ (feeSum extras : ℚ) := Nat.cast_nonneg _
  obtain ⟨c1, c2⟩ := fl_between (packagedNat s p k + feeSum extras) (by omega)
    (x0 + (feeSum extras : ℚ)) (by linarith)
    (by push_cast; linarith) (by push_cast; linarith)
  by_cases he : ExtraKind.express ∈ extras
  · simp only [he, decide_True, if_true, specExpressFactor]
    unfold jsMul jsAdd PRICING.expressMultiplier
    have hpos : (0 : ℚ) < fl (x0 + (feeSum extras : ℚ)) * (5 / 4) := by
      push_cast at c1; nlinarith
    constructor
    · have ha : IsBinary64 (((packagedNat s p k + feeSum extras : ℕ) : ℚ) * (5 / 4)) := by
        have := isBinary64_nat_div (5 * (packagedNat s p k + feeSum extras)) 2 (by omega)
        have e : (((5 * (packagedNat s p k + feeSum extras) : ℕ) : ℚ) / 2 ^ 2)
            = ((packagedNat s p k + feeSum extras : ℕ) : ℚ) * (5 / 4) := by
          push_cast; ring
        rwa [e] at this
      exact le_fl ha (by linarith) hpos
    · have hb : IsBinary64 (((packagedNat s p k + feeSum extras : ℕ) : ℚ) * (5 / 4) + 5 / 32) := by
        have := isBinary64_nat_div (40 * (packagedNat s p k + feeSum extras) + 5) 5 (by omega)
        have e : (((40 * (packagedNat s p k + feeSum extras) + 5 : ℕ) : ℚ) / 2 ^ 5)
            = ((packagedNat s p k + feeSum extras : ℕ) : ℚ) * (5 / 4) + 5 / 32 := by
          push_cast; ring
        rwa [e] at this
      exact fl_le hb (by linarith) hpos
  · simp only [he, decide_False, specExpressFactor, if_false, Bool.false_eq_true]
    unfold jsAdd
    constructor <;> linarith

/-- The total computed by `calculateQuote` for a complete selection is the exact
formula of the specification. -/
theorem calculateQuote_eq_specTotal (s : ServiceType) (p : PropertySize) (k : PackageLevel)
    (extras : List ExtraKind) (hlen : extras.length < maxArrayLength) :
    calculateQuote ⟨some s, some p, some k, extras⟩ = specTotal s p k extras := by
  obtain ⟨h1, h2⟩ := subtotal_between s p k extras hlen
  show Math.round (calculateQuote.subtotal s p k extras) = specTotal s p k extras
  unfold specTotal specRound
  rw [spec_packaged, specFlatFees_eq]
  by_cases he : ExtraKind.express ∈ extras
  · simp only [specExpressFactor, he, if_true] at h1 h2 ⊢
    have := round_quarters (5 * (packagedNat s p k + feeSum extras))
      (calculateQuote.subtotal s p k extras)
      (by push_cast at h1 ⊢; linarith) (by push_cast at h2 ⊢; linarith)
    rw [this]
    congr 1
    push_cast
    ring
  · simp only [specExpressFactor, he, if_false] at h1 h2 ⊢
    have := round_quarters (4 * (packagedNat s p k + feeSum extras))
      (calculateQuote.subtotal s p k extras)
      (by push_cast at h1 ⊢; linarith) (by push_cast at h2 ⊢; linarith)
    rw [this]
    congr 1
    push_cast
    ring

/-! ## Pricing: the settled statements -/

theorem specFlatFees_perm {l₁ l₂ : List ExtraKind} (h : l₁.Perm l₂) :
    specFlatFees l₁ = specFlatFees l₂ := by
  unfold specFlatFees
  exact ((h.filter _).map _).sum_eq

theorem specExpressFactor_perm {l₁ l₂ : List ExtraKind} (h : l₁.Perm l₂) :
    specExpressFactor l₁ = specExpressFactor l₂ := by
  unfold specExpressFactor
  simp only [h.mem_iff]

theorem specTotal_perm (s : ServiceType) (p : PropertySize) (k : PackageLevel)
    {l₁ l₂ : List ExtraKind} (h : l₁.Perm l₂) : specTotal s p k l₁ = specTotal s p k l₂ := by
  unfold specTotal
  rw [specFlatFees_perm h, specExpressFactor_perm h]

/-- C1: for a complete selection over an array of extras, `calculateQuote` returns
the exact value `round ((base × multiplier + flat fees of the non-express extras) × e)`
with `e = 1.25` when express is listed and `1` otherwise: the express factor comes
after the flat fees and the one rounding, half up, comes last. -/
theorem calculateQuote_formula (serviceType : ServiceType) (propertySize : PropertySize)
    (packageLevel : PackageLevel) (extras : List ExtraKind)
    (hlen : extras.length < maxArrayLength) :
    calculateQuote ⟨some serviceType, some propertySize, some packageLevel, extras⟩
      = specRound ((specBasePrice serviceType propertySize * specMultiplier packageLevel
          + specFlatFees extras) * (if ExtraKind.express ∈ extras then 5 / 4 else 1)) :=
  calculateQuote_eq_specTotal serviceType propertySize packageLevel extras hlen

/-- Witness of C1 at turnkey with three extras and express. -/
theorem calculateQuote_formula_witness :
    calculateQuote ⟨some ServiceType.refresh, some PropertySize.bed4, some PackageLevel.turnkey,
        [ExtraKind.garden, ExtraKind.express, ExtraKind.listing]⟩
      = specRound ((specBasePrice ServiceType.refresh PropertySize.bed4
          * specMultiplier PackageLevel.turnkey
          + specFlatFees [ExtraKind.garden, ExtraKind.express, ExtraKind.listing])
          * (if ExtraKind.express ∈ [ExtraKind.garden, ExtraKind.express, ExtraKind.listing]
              then 5 / 4 else 1)) :=
  calculateQuote_formula ServiceType.refresh PropertySize.bed4 PackageLevel.turnkey
    [ExtraKind.garden, ExtraKind.express, ExtraKind.listing] (by decide)

/-- C2: for airbnb, 2bed, premium with photography and express the value handed to
`Math.round` is exactly `6437.5` and `calculateQuote` returns `6438`. -/
theorem calculateQuote_example :
    calculateQuote.subtotal ServiceType.airbnb PropertySize.bed2 PackageLevel.premium
        [ExtraKind.photography, ExtraKind.express] = 12875 / 2
    ∧ calculateQuote ⟨some ServiceType.airbnb, some PropertySize.bed2, some PackageLevel.premium,
        [ExtraKind.photography, ExtraKind.express]⟩ = 6438 := by
  have h1 : fl 4800 = 4800 := by simpa using fl_eq_self (isBinary64_nat 4800 (by norm_num))
  have h2 : fl 350 = 350 := by simpa using fl_eq_self (isBinary64_nat 350 (by norm_num))
  have h3 : fl 5150 = 5150 := by simpa using fl_eq_self (isBinary64_nat 5150 (by norm_num))
  have h4 : fl (12875 / 2) = 12875 / 2 := by
    simpa using fl_eq_self (isBinary64_nat_div 12875 1 (by norm_num))
  have hs : calculateQuote.subtotal ServiceType.airbnb PropertySize.bed2 PackageLevel.premium
      [ExtraKind.photography, ExtraKind.express] = 12875 / 2 := by
    simp only [calculateQuote.subtotal, calculateQuote.visit, List.foldl, reduceCtorEq,
      if_false, if_true]
    norm_num [jsMul, jsAdd, jsOr, PRICING.base, PRICING.packages, PRICING.extras,
      PRICING.expressMultiplier, h1, h2, h3, h4]
  refine ⟨hs, ?_⟩
  show Math.round (calculateQuote.subtotal _ _ _ _) = 6438
  rw [hs]
  unfold Math.round
  rw [Int.floor_eq_iff]
  norm_num

/-- C3: every pair of service type and property size has its tabulated base price
in `PRICING`, the fallback of the lookup is not taken, and with the essential package
and no extras `calculateQuote` returns that base price. -/
theorem base_price_table (serviceType : ServiceType) (propertySize : PropertySize) :
    PRICING.base serviceType propertySize = specBasePrice serviceType propertySize
    ∧ jsOr (PRICING.base serviceType propertySize) 0 = specBasePrice serviceType propertySize
    ∧ ((calculateQuote ⟨some serviceType, some propertySize, some PackageLevel.essential, []⟩ : ℤ) : ℚ)
        = specBasePrice serviceType propertySize := by
  have hq := calculateQuote_eq_specTotal serviceType propertySize PackageLevel.essential []
    (by decide)
  rw [hq]
  cases serviceType <;> cases propertySize <;>
    norm_num [PRICING.base, specBasePrice, jsOr, specTotal, specRound, specMultiplier,
      specFlatFees, specExpressFactor]

theorem floor_quarters (T : ℕ) : ⌊(T : ℚ) / 4 + 1 / 2⌋ = (((T + 2) / 4 : ℕ) : ℤ) := by
  have hT : ((T + 2) / 4 * 4 + (T + 2) % 4 : ℕ) = T + 2 := Nat.div_add_mod' (T + 2) 4
  have hrq : (((T + 2) % 4 : ℕ) : ℚ) ≤ 3 := by
    have : (T + 2) % 4 ≤ 3 := by omega
    exact_mod_cast this
  have hr0 : (0 : ℚ) ≤ (((T + 2) % 4 : ℕ) : ℚ) := Nat.cast_nonneg _
  have hTq : (((T + 2) / 4 : ℕ) : ℚ) * 4 + (((T + 2) % 4 : ℕ) : ℚ) = (T : ℚ) + 2 := by
    exact_mod_cast hT
  rw [Int.floor_eq_iff, Int.cast_natCast]
  constructor <;> linarith

/-- The exact total in natural-number arithmetic. -/
theorem specTotal_nat (s : ServiceType) (p : PropertySize) (k : PackageLevel)
    (extras : List ExtraKind) :
    specTotal s p k extras
      = ((((if ExtraKind.express ∈ extras then 5 else 4) * (packagedNat s p k + feeSum extras) + 2)
          / 4 : ℕ) : ℤ) := by
  unfold specTotal specRound specExpressFactor
  rw [spec_packaged, specFlatFees_eq, ← floor_quarters]
  congr 1
  split_ifs <;> push_cast <;> ring

theorem feeNat_cases (x : ExtraKind) (hx : x ≠ ExtraKind.express) :
    feeNat x = 350 ∨ feeNat x = 150 ∨ feeNat x = 450 := by
  cases x <;> simp [feeNat] at hx ⊢

/-- C4 as stated fails: with express already selected, adding photography to
airbnb, studio, essential raises the total from 2250 to 2688, that is by 438 and
not by the flat fee 350. -/
theorem express_breaks_flat_fee :
    ExtraKind.photography ≠ ExtraKind.express
    ∧ ExtraKind.photography ∉ [ExtraKind.express]
    ∧ calculateQuote ⟨some ServiceType.airbnb, some PropertySize.studio,
        some PackageLevel.essential, [ExtraKind.express]⟩ = 2250
    ∧ calculateQuote ⟨some ServiceType.airbnb, some PropertySize.studio,
        some PackageLevel.essential, [ExtraKind.express, ExtraKind.photography]⟩ = 2688
    ∧ (2688 : ℚ) ≠ 2250 + PRICING.extras ExtraKind.photography := by
  refine ⟨by decide, by decide, ?_, ?_, by norm_num [PRICING.extras]⟩
  · rw [calculateQuote_eq_specTotal _ _ _ _ (by decide), specTotal_nat]
    decide
  · rw [calculateQuote_eq_specTotal _ _ _ _ (by decide), specTotal_nat]
    decide

/-- C4, amended: adding a non-express extra `x` to the extras `E` (at any position)
strictly increases the total; the increase is exactly the flat fee of `x` when express
is not in `E`, and a whole number next to 1.25 times the flat fee when express is in `E`. -/
theorem extra_fee_increment (serviceType : ServiceType) (propertySize : PropertySize)
    (packageLevel : PackageLevel) (E E' : List ExtraKind) (x : ExtraKind)
    (hx : x ≠ ExtraKind.express) (hadd : E'.Perm (x :: E))
    (hlen : E'.length < maxArrayLength) :
    calculateQuote ⟨some serviceType, some propertySize, some packageLevel, E⟩
      < calculateQuote ⟨some serviceType, some propertySize, some packageLevel, E'⟩
    ∧ (ExtraKind.express ∉ E →
        ((calculateQuote ⟨some serviceType, some propertySize, some packageLevel, E'⟩ : ℤ) : ℚ)
          = calculateQuote ⟨some serviceType, some propertySize, some packageLevel, E⟩
            + PRICING.extras x)
    ∧ (ExtraKind.express ∈ E →
        4 * (((calculateQuote ⟨some serviceType, some propertySize, some packageLevel, E'⟩ : ℤ) : ℚ)
            - calculateQuote ⟨some serviceType, some propertySize, some packageLevel, E⟩)
          = 5 * PRICING.extras x - 2
        ∨ 4 * (((calculateQuote ⟨some serviceType, some propertySize, some packageLevel, E'⟩ : ℤ) : ℚ)
            - calculateQuote ⟨some serviceType, some propertySize, some packageLevel, E⟩)
          = 5 * PRICING.extras x + 2) := by
  have hl : E'.length = E.length + 1 := by simpa using hadd.length_eq
  have hlenE : E.length < maxArrayLength := by omega
  rw [calculateQuote_eq_specTotal _ _ _ _ hlen, calculateQuote_eq_specTotal _ _ _ _ hlenE,
    specTotal_perm _ _ _ hadd, specTotal_nat, specTotal_nat, feeSum_cons, pricing_extras_eq]
  have hmem : ExtraKind.express ∈ x :: E ↔ ExtraKind.express ∈ E := by
    simp [List.mem_cons, Ne.symm hx]
  simp only [hmem]
  have hfee := feeNat_cases x hx
  by_cases he : ExtraKind.express ∈ E
  · simp only [he, if_true, not_true_eq_false, false_implies, true_implies, true_and]
    obtain ⟨A, hA⟩ : ∃ A : ℕ,
        A = (5 * (packagedNat serviceType propertySize packageLevel + feeSum E) + 2) / 4 :=
      ⟨_, rfl⟩
    obtain ⟨B, hB⟩ : ∃ B : ℕ,
        B = (5 * (packagedNat serviceType propertySize packageLevel + (feeNat x + feeSum E)) + 2)
          / 4 := ⟨_, rfl⟩
    rw [← hA, ← hB]
    have key : (4 * B = 4 * A + 5 * feeNat x - 2 ∨ 4 * B = 4 * A + 5 * feeNat x + 2)
        ∧ A < B ∧ 2 ≤ 5 * feeNat x := by
      rcases hfee with h | h | h <;> rw [h] at hB ⊢ <;> omega
    obtain ⟨hk, hlt, h2⟩ := key
    refine ⟨by exact_mod_cast hlt, ?_⟩
    rcases hk with hk | hk
    · left
      have hk' : 4 * B + 2 = 4 * A + 5 * feeNat x := by omega
      have : (4 : ℚ) * B + 2 = 4 * A + 5 * feeNat x := by exact_mod_cast hk'
      push_cast
      linarith
    · right
      have : (4 : ℚ) * B = 4 * A + 5 * feeNat x + 2 := by exact_mod_cast hk
      push_cast
      linarith
  · simp only [he, if_false, not_false_eq_true, true_implies, false_implies, and_true]
    obtain ⟨A, hA⟩ : ∃ A : ℕ,
        A = (4 * (packagedNat serviceType propertySize packageLevel + feeSum E) + 2) / 4 :=
      ⟨_, rfl⟩
    obtain ⟨B, hB⟩ : ∃ B : ℕ,
        B = (4 * (packagedNat serviceType propertySize packageLevel + (feeNat x + feeSum E)) + 2)
          / 4 := ⟨_, rfl⟩
    rw [← hA, ← hB]
    have key : B = A + feeNat x ∧ A < B := by
      rcases hfee with h | h | h <;> rw [h] at hB ⊢ <;> omega
    obtain ⟨hk, hlt⟩ := key
    refine ⟨by exact_mod_cast hlt, ?_⟩
    rw [hk]
    push_cast
    ring

/-- Witness of the amended C4: photography added before an express already selected. -/
theorem extra_fee_increment_witness :
    calculateQuote ⟨some ServiceType.airbnb, some PropertySize.studio,
        some PackageLevel.essential, [ExtraKind.express]⟩
      < calculateQuote ⟨some ServiceType.airbnb, some PropertySize.studio,
        some PackageLevel.essential, [ExtraKind.photography, ExtraKind.express]⟩ :=
  (extra_fee_increment ServiceType.airbnb PropertySize.studio PackageLevel.essential
    [ExtraKind.express] [ExtraKind.photography, ExtraKind.express] ExtraKind.photography
    (by decide) (List.Perm.refl _) (by decide)).1

/-- C5: two extras arrays that are permutations of each other give the same total,
whatever the three other fields are. -/
theorem calculateQuote_perm (serviceType : Option ServiceType)
    (propertySize : Option PropertySize) (packageLevel : Option PackageLevel)
    (extras₁ extras₂ : List ExtraKind) (hperm : extras₁.Perm extras₂)
    (hlen : extras₁.length < maxArrayLength) :
    calculateQuote ⟨serviceType, propertySize, packageLevel, extras₁⟩
      = calculateQuote ⟨serviceType, propertySize, packageLevel, extras₂⟩ := by
  have hlen₂ : extras₂.length < maxArrayLength := by rw [← hperm.length_eq]; exact hlen
  cases serviceType with
  | none => rfl
  | some s =>
    cases propertySize with
    | none => rfl
    | some p =>
      cases packageLevel with
      | none => rfl
      | some k =>
        rw [calculateQuote_eq_specTotal s p k extras₁ hlen,
          calculateQuote_eq_specTotal s p k extras₂ hlen₂, specTotal_perm s p k hperm]

/-- Witness of C5: express first against express last. -/
theorem calculateQuote_perm_witness :
    calculateQuote ⟨some ServiceType.staging, some PropertySize.bed3, some PackageLevel.turnkey,
        [ExtraKind.express, ExtraKind.garden]⟩
      = calculateQuote ⟨some ServiceType.staging, some PropertySize.bed3,
        some PackageLevel.turnkey, [ExtraKind.garden, ExtraKind.express]⟩ :=
  calculateQuote_perm (some ServiceType.staging) (some PropertySize.bed3)
    (some PackageLevel.turnkey) [ExtraKind.express, ExtraKind.garden]
    [ExtraKind.garden, ExtraKind.express] (List.Perm.swap _ _ _) (by decide)

/-! ## The wizard: the settled statements -/

/-- C6: a click on Next at step 1, 2 or 3 whose required input is not checked shakes
the button and changes neither `currentStep` nor any checked input nor the result
display, `quoteData` being the checked inputs as collected (so the whole state is
unchanged when `quoteData` already held them); with the required input checked the
step becomes the next one and the checked inputs stay. -/
theorem advance_validates (w : Wizard) (h1 : 1 ≤ w.currentStep) (h3 : w.currentStep < 4) :
    (specRequiredSet w.currentStep w.quoteForm = false →
      (quoteNextClick w).2 = Outcome.shake
      ∧ (quoteNextClick w).1.currentStep = w.currentStep
      ∧ (quoteNextClick w).1.quoteForm = w.quoteForm
      ∧ (quoteNextClick w).1 = collectData w
      ∧ (w.quoteData = (collectData w).quoteData → (quoteNextClick w).1 = w))
    ∧ (specRequiredSet w.currentStep w.quoteForm = true →
      (quoteNextClick w).2 = Outcome.stepped
      ∧ (quoteNextClick w).1.currentStep = w.currentStep + 1
      ∧ (quoteNextClick w).1.quoteForm = w.quoteForm
      ∧ (quoteNextClick w).1 = showStep (collectData w) (w.currentStep + 1)) := by
  obtain ⟨step, qd, ⟨st, sz, pk, ex⟩, fh, rv, qa, qb⟩ := w
  have hs : step = 1 ∨ step = 2 ∨ step = 3 := by
    simp only at h1 h3; omega
  rcases hs with rfl | rfl | rfl
  · cases st <;> simp [specRequiredSet, quoteNextClick, collectData, showStep, totalSteps]
    intro h; rw [h]
  · cases sz <;> simp [specRequiredSet, quoteNextClick, collectData, showStep, totalSteps]
    intro h; rw [h]
  · cases pk <;> simp [specRequiredSet, quoteNextClick, collectData, showStep, totalSteps]
    intro h; rw [h]

/-- Witness of C6: Next on the initial state is refused and changes nothing, and
after airbnb is checked it leads to step 2. -/
theorem advance_validates_witness :
    ((quoteNextClick Wizard.init).2 = Outcome.shake
      ∧ (quoteNextClick Wizard.init).1 = Wizard.init)
    ∧ (quoteNextClick { Wizard.init with
          quoteForm := ⟨some ServiceType.airbnb, none, none, []⟩ }).1.currentStep = 2 :=
  ⟨⟨((advance_validates Wizard.init (by decide) (by decide)).1 rfl).1,
    ((advance_validates Wizard.init (by decide) (by decide)).1 rfl).2.2.2.2 rfl⟩,
   ((advance_validates { Wizard.init with
      quoteForm := ⟨some ServiceType.airbnb, none, none, []⟩ }
      (by decide) (by decide)).2 rfl).2.1⟩

theorem showResult_lines_getLast (s : ServiceType) (p : Option PropertySize)
    (k : Option PackageLevel) (extras : List ExtraKind) (t : ℤ) :
    (showResult.lines s p k extras t).getLast? = some ⟨Label.total, LineValue.amount t⟩ := by
  unfold showResult.lines
  simp only [List.getLast?_concat]

/-- C7: a click on Next at step 4 is never refused, whatever is checked: the result
becomes visible, the amount shown is `calculateQuote` of the inputs checked in the form
at the click, which `quoteData` then holds, and the step and the checked inputs stay.
The click ends with the breakdown written, its last line the total of the same amount,
exactly when a service type is checked; and for a complete selection, whatever its
extras, the amount shown is the exact total of the pricing rule. -/
theorem advance_from_last_step (w : Wizard) (h4 : w.currentStep = 4) :
    (quoteNextClick w).2 ≠ Outcome.shake
    ∧ (quoteNextClick w).2 ≠ Outcome.stepped
    ∧ ((quoteNextClick w).2 = Outcome.result ↔ w.quoteForm.serviceType ≠ none)
    ∧ (quoteNextClick w).1.resultVisible = true
    ∧ (quoteNextClick w).1.formHidden = true
    ∧ (quoteNextClick w).1.quoteAmount
        = some (calculateQuote ⟨w.quoteForm.serviceType, w.quoteForm.propertySize,
            w.quoteForm.packageLevel, w.quoteForm.extras⟩)
    ∧ (quoteNextClick w).1.quoteData
        = ⟨w.quoteForm.serviceType, w.quoteForm.propertySize, w.quoteForm.packageLevel,
            w.quoteForm.extras⟩
    ∧ (quoteNextClick w).1.quoteForm = w.quoteForm
    ∧ (quoteNextClick w).1.currentStep = 4
    ∧ (w.quoteForm.serviceType ≠ none →
        (quoteNextClick w).1.quoteBreakdown.getLast?
          = some ⟨Label.total, LineValue.amount
              (calculateQuote ⟨w.quoteForm.serviceType, w.quoteForm.propertySize,
                w.quoteForm.packageLevel, w.quoteForm.extras⟩)⟩)
    ∧ (∀ s p k, w.quoteForm.serviceType = some s → w.quoteForm.propertySize = some p →
        w.quoteForm.packageLevel = some k → w.quoteForm.extras.length < maxArrayLength →
        (quoteNextClick w).2 = Outcome.result
        ∧ (quoteNextClick w).1.quoteAmount = some (specTotal s p k w.quoteForm.extras)
        ∧ (quoteNextClick w).1.quoteBreakdown.getLast?
          = some ⟨Label.total, LineValue.amount (specTotal s p k w.quoteForm.extras)⟩) := by
  obtain ⟨step, qd, ⟨st, sz, pk, ex⟩, fh, rv, qa, qb⟩ := w
  simp only at h4
  subst h4
  refine ⟨?_, ?_, ?_, ?_, ?_, ?_, ?_, ?_, ?_, ?_, ?_⟩
  iterate 9 cases st <;> simp [quoteNextClick, collectData, showResult, totalSteps]
  · cases st <;>
      simp [quoteNextClick, collectData, showResult, showResult_lines_getLast, totalSteps]
  · intro s p k hs hp hk hlen
    simp only at hs hp hk hlen
    subst hs hp hk
    rw [← calculateQuote_eq_specTotal s p k ex hlen]
    simp [quoteNextClick, collectData, showResult, showResult_lines_getLast, totalSteps]

/-- Witness of C7: at step 4 with staging, 4bed, turnkey and the extras garden and
listing checked, Next shows the result with the amount 11600. -/
theorem advance_from_last_step_witness :
    (quoteNextClick { Wizard.init with
        currentStep := 4
        quoteForm := ⟨some ServiceType.staging, some PropertySize.bed4,
          some PackageLevel.turnkey, [ExtraKind.garden, ExtraKind.listing]⟩ }).2 = Outcome.result
    ∧ (quoteNextClick { Wizard.init with
        currentStep := 4
        quoteForm := ⟨some ServiceType.staging, some PropertySize.bed4,
          some PackageLevel.turnkey, [ExtraKind.garden, ExtraKind.listing]⟩ }).1.quoteAmount
      = some 11600 := by
  obtain ⟨_, _, _, _, _, _, _, _, _, _, hc⟩ :=
    advance_from_last_step { Wizard.init with
        currentStep := 4
        quoteForm := ⟨some ServiceType.staging, some PropertySize.bed4,
          some PackageLevel.turnkey, [ExtraKind.garden, ExtraKind.listing]⟩ } rfl
  obtain ⟨h1, h2, _⟩ :=
    hc ServiceType.staging PropertySize.bed4 PackageLevel.turnkey rfl rfl rfl (by decide)
  refine ⟨h1, ?_⟩
  rw [h2, specTotal_nat]
  decide

/-- C8 as stated fails: at step 1 with a service type checked, Back does nothing and
the following Next leads to step 2, not back to step 1. -/
theorem back_at_first_step_then_next :
    ({ Wizard.init with quoteForm := ⟨some ServiceType.airbnb, none, none, []⟩ } : Wizard).currentStep
      = 1
    ∧ (quoteNextClick (quotePrevClick { Wizard.init with
          quoteForm := ⟨some ServiceType.airbnb, none, none, []⟩ })).1.currentStep = 2 := by
  constructor <;> rfl

/-- C8, amended: Back at step 1 changes nothing; at a step `n > 1` it leads to step
`n - 1` and changes nothing else; and at a step `n` from 2 to 4 with the input required
at step `n - 1` checked, Back followed by Next leads to step `n` again with the checked
inputs as they were. -/
theorem retreat_then_advance (w : Wizard) :
    (w.currentStep = 1 → quotePrevClick w = w)
    ∧ (1 < w.currentStep →
        (quotePrevClick w).currentStep = w.currentStep - 1
        ∧ quotePrevClick w = showStep w (w.currentStep - 1)
        ∧ (quotePrevClick w).quoteForm = w.quoteForm
        ∧ (quotePrevClick w).quoteData = w.quoteData)
    ∧ (2 ≤ w.currentStep → w.currentStep ≤ 4 →
        specRequiredSet (w.currentStep - 1) w.quoteForm = true →
        (quoteNextClick (quotePrevClick w)).2 = Outcome.stepped
        ∧ (quoteNextClick (quotePrevClick w)).1.currentStep = w.currentStep
        ∧ (quoteNextClick (quotePrevClick w)).1.quoteForm = w.quoteForm
        ∧ (quoteNextClick (quotePrevClick w)).1.quoteData = (collectData w).quoteData) := by
  obtain ⟨step, qd, ⟨st, sz, pk, ex⟩, fh, rv, qa, qb⟩ := w
  refine ⟨?_, ?_, ?_⟩
  · intro h
    simp only at h
    subst h
    rfl
  · intro h
    simp only at h
    simp [quotePrevClick, showStep, h]
  · intro h2 h4 hset
    simp only at h2 h4 hset
    have hs : step = 2 ∨ step = 3 ∨ step = 4 := by omega
    rcases hs with rfl | rfl | rfl
    · cases st <;>
        simp_all [specRequiredSet, quotePrevClick, quoteNextClick, collectData, showStep,
          totalSteps]
    · cases sz <;>
        simp_all [specRequiredSet, quotePrevClick, quoteNextClick, collectData, showStep,
          totalSteps]
    · cases pk <;>
        simp_all [specRequiredSet, quotePrevClick, quoteNextClick, collectData, showStep,
          totalSteps]

/-- Witness of the amended C8: from step 3 with a size checked, Back and Next lead to
step 3 again. -/
theorem retreat_then_advance_witness :
    (quoteNextClick (quotePrevClick { Wizard.init with
        currentStep := 3
        quoteForm := ⟨some ServiceType.airbnb, some PropertySize.bed2, none, []⟩ })).1.currentStep
      = 3 :=
  ((retreat_then_advance { Wizard.init with
      currentStep := 3
      quoteForm := ⟨some ServiceType.airbnb, some PropertySize.bed2, none, []⟩ }).2.2
    (by decide) (by decide) rfl).2.1

/-- C9: `resetQuote` leads from every state to step 1 with `quoteData` cleared, every
input unchecked, the form shown and the result hidden. -/
theorem reset_clears (w : Wizard) :
    (resetQuote w).currentStep = 1
    ∧ (resetQuote w).quoteData = ⟨none, none, none, []⟩
    ∧ (resetQuote w).quoteForm = ⟨none, none, none, []⟩
    ∧ (resetQuote w).resultVisible = false
    ∧ (resetQuote w).formHidden = false :=
  ⟨rfl, rfl, rfl, rfl, rfl⟩

/-! ## The breakdown -/

/-- The amount of the package line is the exact product rounded half up. -/
theorem round_packaged (s : ServiceType) (p : PropertySize) (k : PackageLevel) :
    Math.round (jsMul (jsOr (PRICING.base s p) 0) (jsOr (PRICING.packages k) 1))
      = specRound (specBasePrice s p * specMultiplier k) := by
  obtain ⟨h1, h2⟩ := packaged_between s p k
  have := round_quarters (4 * packagedNat s p k)
    (jsMul (jsOr (PRICING.base s p) 0) (jsOr (PRICING.packages k) 1))
    (by push_cast; linarith) (by push_cast; linarith)
  rw [this, spec_packaged]
  unfold specRound
  congr 1
  push_cast
  ring

theorem base_lookup (s : ServiceType) (p : PropertySize) :
    jsOr (PRICING.base s p) 0 = specBasePrice s p := by
  cases s <;> cases p <;> norm_num [PRICING.base, specBasePrice, jsOr]

theorem packages_ne_one (k : PackageLevel) :
    jsOr (PRICING.packages k) 1 = PRICING.packages k
    ∧ (PRICING.packages k ≠ 1 ↔ k ≠ PackageLevel.essential)
    ∧ (specMultiplier k ≠ 1 ↔ k ≠ PackageLevel.essential) := by
  cases k <;> simp [PRICING.packages, specMultiplier, jsOr, fl_eleven_fifths] <;> norm_num

theorem filterMap_extras (extras : List ExtraKind) :
    extras.filterMap (fun extra =>
        if extra ≠ ExtraKind.express then
          some (⟨Label.extra extra, LineValue.amount (PRICING.extras extra)⟩ : LineItem)
        else none)
      = (extras.filter (fun e => e ≠ ExtraKind.express)).map
          (fun e => ⟨Label.extra e, LineValue.amount (specExtraFee e)⟩) := by
  induction extras with
  | nil => rfl
  | cons e l ih =>
    cases e <;> simp [List.filterMap_cons, List.filter_cons, PRICING.extras, specExtraFee] <;>
      simpa using ih

/-- C10: for a complete selection `showResult` writes exactly these lines: the
service and size line with the base price; the package line with the base price times
the multiplier, rounded, present exactly when the multiplier is not 1, that is for
every package but essential; one line with its flat fee per non-express extra, in the
order of the selection; the `Applied` line of express exactly when express is selected,
after those; and last the total line with the amount of `calculateQuote`. -/
theorem breakdown_lines (w : Wizard) (serviceType : ServiceType) (propertySize : PropertySize)
    (packageLevel : PackageLevel) (extras : List ExtraKind)
    (hq : w.quoteData = ⟨some serviceType, some propertySize, some packageLevel, extras⟩) :
    (showResult w).2 = Outcome.result
    ∧ (showResult w).1.quoteBreakdown
      = [⟨Label.serviceSize serviceType (some propertySize),
          LineValue.amount (specBasePrice serviceType propertySize)⟩]
        ++ (if specMultiplier packageLevel ≠ 1 then
              [⟨Label.package (some packageLevel) (PRICING.packages packageLevel),
                LineValue.amount
                  (specRound (specBasePrice serviceType propertySize
                    * specMultiplier packageLevel))⟩]
            else [])
        ++ (extras.filter (fun e => e ≠ ExtraKind.express)).map
            (fun e => ⟨Label.extra e, LineValue.amount (specExtraFee e)⟩)
        ++ (if ExtraKind.express ∈ extras then
              [⟨Label.extra ExtraKind.express, LineValue.applied⟩]
            else [])
        ++ [⟨Label.total, LineValue.amount (calculateQuote w.quoteData)⟩]
    ∧ (specMultiplier packageLevel ≠ 1 ↔ packageLevel ≠ PackageLevel.essential)
    ∧ (showResult w).1.quoteAmount = some (calculateQuote w.quoteData) := by
  obtain ⟨h1, h2, h3⟩ := packages_ne_one packageLevel
  refine ⟨?_, ?_, h3, ?_⟩
  · simp [showResult, hq]
  · have hc : (specMultiplier packageLevel ≠ 1) = (PRICING.packages packageLevel ≠ 1) :=
      propext (h3.trans h2.symm)
    have hr := round_packaged serviceType propertySize packageLevel
    rw [base_lookup, h1] at hr
    simp only [showResult, hq, showResult.lines, filterMap_extras, base_lookup, h1, hr, hc]
  · simp [showResult, hq]

/-- Witness of C10: the result of a turnkey selection with express checked before
photography. -/
theorem breakdown_lines_witness :
    (showResult { Wizard.init with
        currentStep := 4
        quoteData := ⟨some ServiceType.airbnb, some PropertySize.studio,
          some PackageLevel.turnkey, [ExtraKind.express, ExtraKind.photography]⟩ }).2
      = Outcome.result :=
  (breakdown_lines { Wizard.init with
      currentStep := 4
      quoteData := ⟨some ServiceType.airbnb, some PropertySize.studio,
        some PackageLevel.turnkey, [ExtraKind.express, ExtraKind.photography]⟩ }
    ServiceType.airbnb PropertySize.studio PackageLevel.turnkey
    [ExtraKind.express, ExtraKind.photography] rfl).1

/-! ## The place of the express line -/

theorem filter_isExtra_map (l : List ExtraKind) (v : ExtraKind → LineValue) :
    (l.map (fun e => (⟨Label.extra e, v e⟩ : LineItem))).filter LineItem.isExtra
      = l.map (fun e => ⟨Label.extra e, v e⟩) := by
  rw [List.filter_eq_self]
  intro item hitem
  rw [List.mem_map] at hitem
  obtain ⟨e, _, rfl⟩ := hitem
  rfl

/-- C11 as stated fails: with express selected before photography the breakdown
has the photography line before the express line. -/
theorem express_line_not_in_place :
    List.map LineItem.label
      (showResult { Wizard.init with
        currentStep := 4
        quoteData := ⟨some ServiceType.airbnb, some PropertySize.studio,
          some PackageLevel.essential, [ExtraKind.express, ExtraKind.photography]⟩ }).1.quoteBreakdown
      = [Label.serviceSize ServiceType.airbnb (some PropertySize.studio),
         Label.extra ExtraKind.photography, Label.extra ExtraKind.express, Label.total] := by
  simp [showResult, showResult.lines, Wizard.init, jsOr, PRICING.packages]

/-- C11, amended: the lines of the extras are those of the non-express extras in
selection order followed, when express is selected, by the `Applied` line of express,
wherever express stands in the selection; and the total line is last. -/
theorem express_line_after_extras (w : Wizard) (serviceType : ServiceType)
    (hs : w.quoteData.serviceType = some serviceType) :
    (showResult w).1.quoteBreakdown.filter LineItem.isExtra
      = (w.quoteData.extras.filter (fun e => e ≠ ExtraKind.express)).map
          (fun e => ⟨Label.extra e, LineValue.amount (specExtraFee e)⟩)
        ++ (if ExtraKind.express ∈ w.quoteData.extras then
              [⟨Label.extra ExtraKind.express, LineValue.applied⟩]
            else [])
    ∧ (showResult w).1.quoteBreakdown.getLast?
      = some ⟨Label.total, LineValue.amount (calculateQuote w.quoteData)⟩ := by
  constructor
  · simp only [showResult, hs, showResult.lines, filterMap_extras, List.filter_append,
      filter_isExtra_map]
    split_ifs <;> simp [LineItem.isExtra]
  · simp [showResult, hs, showResult_lines_getLast]

/-- Witness of the amended C11: express selected first. -/
theorem express_line_after_extras_witness :
    (showResult { Wizard.init with
        currentStep := 4
        quoteData := ⟨some ServiceType.airbnb, some PropertySize.studio,
          some PackageLevel.essential, [ExtraKind.express, ExtraKind.photography]⟩ }).1.quoteBreakdown.filter
        LineItem.isExtra
      = [⟨Label.extra ExtraKind.photography, LineValue.amount (specExtraFee ExtraKind.photography)⟩,
         ⟨Label.extra ExtraKind.express, LineValue.applied⟩] :=
  (express_line_after_extras { Wizard.init with
      currentStep := 4
      quoteData := ⟨some ServiceType.airbnb, some PropertySize.studio,
        some PackageLevel.essential, [ExtraKind.express, ExtraKind.photography]⟩ }
    ServiceType.airbnb rfl).1

/-! ## The guard of `calculateQuote` -/

theorem withTable_PRICING (quoteData : QuoteData) :
    calculateQuote.withTable PRICING.table quoteData = calculateQuote quoteData := by
  obtain ⟨st, sz, pk, ex⟩ := quoteData
  cases st <;> cases sz <;> cases pk <;> rfl

theorem withTable_unset (P : PricingTable) (quoteData : QuoteData)
    (h : quoteData.serviceType = none ∨ quoteData.propertySize = none
      ∨ quoteData.packageLevel = none) :
    calculateQuote.withTable P quoteData = 0 := by
  obtain ⟨st, sz, pk, ex⟩ := quoteData
  cases st <;> cases sz <;> cases pk <;> simp_all [calculateQuote.withTable]

/-- C12: with any of the three fields unset `calculateQuote` returns 0 whatever the
other fields and the extras are, and does so over every pricing matrix in the place
of `PRICING`: no entry of the matrix bears on the result. -/
theorem calculateQuote_unset (quoteData : QuoteData)
    (h : quoteData.serviceType = none ∨ quoteData.propertySize = none
      ∨ quoteData.packageLevel = none) :
    calculateQuote quoteData = 0
    ∧ (∀ P : PricingTable, calculateQuote.withTable P quoteData = 0)
    ∧ calculateQuote.withTable PRICING.table quoteData = calculateQuote quoteData := by
  refine ⟨?_, fun P => withTable_unset P quoteData h, withTable_PRICING quoteData⟩
  rw [← withTable_PRICING]
  exact withTable_unset _ quoteData h

/-- Witness of C12: only the package level unset, two extras selected. -/
theorem calculateQuote_unset_witness :
    calculateQuote ⟨some ServiceType.airbnb, some PropertySize.bed3, none,
      [ExtraKind.garden, ExtraKind.express]⟩ = 0 :=
  (calculateQuote_unset ⟨some ServiceType.airbnb, some PropertySize.bed3, none,
    [ExtraKind.garden, ExtraKind.express]⟩ (Or.inr (Or.inr rfl))).1

/-! ## The step stays in range -/

/-- C13: `currentStep` is 1 when the script has loaded, and a click on Next, a click
on Back and `resetQuote` each lead from a step between 1 and `totalSteps` = 4 to a
step between 1 and 4; Next at step 4 and Back at step 1 leave the step as it is. -/
theorem currentStep_in_range (w : Wizard) (h1 : 1 ≤ w.currentStep)
    (h4 : w.currentStep ≤ totalSteps) :
    Wizard.init.currentStep = 1 ∧ totalSteps = 4
    ∧ (1 ≤ (quoteNextClick w).1.currentStep ∧ (quoteNextClick w).1.currentStep ≤ 4)
    ∧ (1 ≤ (quotePrevClick w).currentStep ∧ (quotePrevClick w).currentStep ≤ 4)
    ∧ (1 ≤ (resetQuote w).currentStep ∧ (resetQuote w).currentStep ≤ 4)
    ∧ (w.currentStep = 4 → (quoteNextClick w).1.currentStep = 4)
    ∧ (w.currentStep = 1 → (quotePrevClick w).currentStep = 1) := by
  obtain ⟨step, qd, ⟨st, sz, pk, ex⟩, fh, rv, qa, qb⟩ := w
  simp only [totalSteps] at h1 h4
  have hs : step = 1 ∨ step = 2 ∨ step = 3 ∨ step = 4 := by omega
  refine ⟨rfl, rfl, ?_, ?_, ⟨by simp [resetQuote, showStep], by simp [resetQuote, showStep]⟩,
    ?_, ?_⟩
  · rcases hs with rfl | rfl | rfl | rfl
    · cases st <;> simp [quoteNextClick, collectData, showStep, showResult, totalSteps]
    · cases sz <;> simp [quoteNextClick, collectData, showStep, showResult, totalSteps]
    · cases pk <;> simp [quoteNextClick, collectData, showStep, showResult, totalSteps]
    · cases st <;> simp [quoteNextClick, collectData, showStep, showResult, totalSteps]
  · rcases hs with rfl | rfl | rfl | rfl <;> simp [quotePrevClick, showStep]
  · intro h
    simp only at h
    subst h
    cases st <;> simp [quoteNextClick, collectData, showStep, showResult, totalSteps]
  · intro h
    simp only at h
    subst h
    simp [quotePrevClick]

/-- Witness of C13: Next at step 4 with nothing checked. -/
theorem currentStep_in_range_witness :
    (quoteNextClick { Wizard.init with currentStep := 4 }).1.currentStep = 4 :=
  (currentStep_in_range { Wizard.init with currentStep := 4 } (by decide) (by decide)).2.2.2.2.2.1
    rfl

/-! ## Validation makes the guard unreachable -/

theorem nodup_length_le (l : List ExtraKind) (h : l.Nodup) : l.length ≤ 4 := by
  have hsub : l ⊆ [ExtraKind.photography, ExtraKind.listing, ExtraKind.garden,
      ExtraKind.express] := by
    intro x _
    cases x <;> simp
  exact (List.subperm_of_subset h hsub).length_le

theorem valid_init : Wizard.init.Valid := by
  simp [Wizard.Valid, Wizard.init]

theorem valid_act (w : Wizard) (a : Action) (h : w.Valid) : (w.act a).Valid := by
  obtain ⟨step, qd, ⟨st, sz, pk, ex⟩, fh, rv, qa, qb⟩ := w
  obtain ⟨h1, h4, hs, hp, hk, hn⟩ := h
  simp only at h1 h4 hs hp hk hn
  cases a with
  | chooseService s => exact ⟨h1, h4, fun _ => rfl, hp, hk, hn⟩
  | chooseSize p => exact ⟨h1, h4, hs, fun _ => rfl, hk, hn⟩
  | choosePackage k => exact ⟨h1, h4, hs, hp, fun _ => rfl, hn⟩
  | setExtras kind present =>
    refine ⟨h1, h4, hs, hp, hk, ?_⟩
    show (if present = true then (if kind ∈ ex then ex else ex ++ [kind])
      else ex.filter (fun e => e ≠ kind)).Nodup
    cases present
    · simpa using hn.filter _
    · by_cases hmem : kind ∈ ex
      · simpa [hmem] using hn
      · simp only [if_true, hmem, if_false]
        exact List.Nodup.append hn (List.nodup_singleton kind) (by simpa using hmem)
  | advance =>
    have hcase : step = 1 ∨ step = 2 ∨ step = 3 ∨ step = 4 := by omega
    rcases hcase with rfl | rfl | rfl | rfl
    · cases st <;>
        simp_all [Wizard.Valid, Wizard.act, quoteNextClick, collectData, showStep, showResult,
          totalSteps]
    · cases sz <;>
        simp_all [Wizard.Valid, Wizard.act, quoteNextClick, collectData, showStep, showResult,
          totalSteps]
    · cases pk <;>
        simp_all [Wizard.Valid, Wizard.act, quoteNextClick, collectData, showStep, showResult,
          totalSteps]
    · cases st <;>
        simp_all [Wizard.Valid, Wizard.act, quoteNextClick, collectData, showStep, showResult,
          totalSteps]
  | retreat =>
    have hcase : step = 1 ∨ step = 2 ∨ step = 3 ∨ step = 4 := by omega
    rcases hcase with rfl | rfl | rfl | rfl <;>
      simp_all [Wizard.Valid, Wizard.act, quotePrevClick, showStep]
  | reset => simp [Wizard.Valid, Wizard.act, resetQuote, showStep]

theorem valid_foldl (actions : List Action) (w : Wizard) (h : w.Valid) :
    (actions.foldl Wizard.act w).Valid := by
  induction actions generalizing w with
  | nil => exact h
  | cons a l ih => exact ih (w.act a) (valid_act w a h)

theorem valid_run (actions : List Action) : (Wizard.run actions).Valid :=
  valid_foldl actions Wizard.init valid_init

theorem calculateQuote_pos (s : ServiceType) (p : PropertySize) (k : PackageLevel)
    (extras : List ExtraKind) (hlen : extras.length < maxArrayLength) :
    0 < calculateQuote ⟨some s, some p, some k, extras⟩ := by
  rw [calculateQuote_eq_specTotal s p k extras hlen, specTotal_nat]
  have hN := packagedNat_pos s p k
  have : 0 < ((if ExtraKind.express ∈ extras then 5 else 4)
      * (packagedNat s p k + feeSum extras) + 2) / 4 := by
    split_ifs <;> omega
  exact_mod_cast this

theorem showResult_lines_head (s : ServiceType) (p : PropertySize)
    (k : Option PackageLevel) (extras : List ExtraKind) (t : ℤ) :
    (showResult.lines s (some p) k extras t).head?
      = some ⟨Label.serviceSize s (some p), LineValue.amount (specBasePrice s p)⟩ := by
  simp [showResult.lines, base_lookup]

/-- In a valid state the required inputs of the earlier steps are checked, and a
click on Next at step 4 collects a complete selection and shows its result. -/
theorem valid_result (w : Wizard) (h : w.Valid) :
    (∀ m, 1 ≤ m → m < w.currentStep → specRequiredSet m w.quoteForm = true)
    ∧ (w.currentStep = 4 →
        ∃ s p k,
          (quoteNextClick w).1.quoteData = ⟨some s, some p, some k, w.quoteForm.extras⟩
          ∧ (quoteNextClick w).2 = Outcome.result
          ∧ (quoteNextClick w).1.resultVisible = true
          ∧ (quoteNextClick w).1.quoteAmount
              = some (Math.round (calculateQuote.subtotal s p k w.quoteForm.extras))
          ∧ 0 < calculateQuote (quoteNextClick w).1.quoteData
          ∧ (quoteNextClick w).1.quoteBreakdown.head?
              = some ⟨Label.serviceSize s (some p), LineValue.amount (specBasePrice s p)⟩) := by
  obtain ⟨step, qd, ⟨st, sz, pk, ex⟩, fh, rv, qa, qb⟩ := w
  obtain ⟨h1, h4, hs, hp, hk, hn⟩ := h
  simp only at h1 h4 hs hp hk hn
  constructor
  · intro m hm1 hm
    simp only at hm
    have hcase : m = 1 ∨ m = 2 ∨ m = 3 := by omega
    rcases hcase with rfl | rfl | rfl
    · exact hs (by omega)
    · exact hp (by omega)
    · exact hk (by omega)
  · intro h
    simp only at h
    subst h
    have hlen : ex.length < maxArrayLength := by
      have := nodup_length_le ex hn
      simp only [maxArrayLength]
      omega
    obtain ⟨s, rfl⟩ := Option.isSome_iff_exists.mp (hs (by omega))
    obtain ⟨p, rfl⟩ := Option.isSome_iff_exists.mp (hp (by omega))
    obtain ⟨k, rfl⟩ := Option.isSome_iff_exists.mp (hk (by omega))
    refine ⟨s, p, k, ?_, ?_, ?_, ?_, ?_, ?_⟩
    · simp [quoteNextClick, collectData, showResult, totalSteps]
    · simp [quoteNextClick, collectData, showResult, totalSteps]
    · simp [quoteNextClick, collectData, showResult, totalSteps]
    · simp [quoteNextClick, collectData, showResult, totalSteps, calculateQuote]
    · have hq : (quoteNextClick ⟨4, qd, ⟨some s, some p, some k, ex⟩, fh, rv, qa, qb⟩).1.quoteData
          = ⟨some s, some p, some k, ex⟩ := by
        simp [quoteNextClick, collectData, showResult, totalSteps]
      rw [hq]
      exact calculateQuote_pos s p k ex hlen
    · simp [quoteNextClick, collectData, showResult, totalSteps, showResult_lines_head]

/-- C14: in every state reached from the initial one by selection events, `setExtras`,
advance, retreat and reset, the inputs required at the steps before the current one
are checked; so a click on Next at step 4 collects a service type, a property size and
a package level, shows the result without a failed lookup, the breakdown opening with
the tabulated base price, and `calculateQuote` returns the rounded subtotal, which is
positive, not the 0 of its guard. -/
theorem validated_before_result (actions : List Action) :
    (∀ m, 1 ≤ m → m < (Wizard.run actions).currentStep →
        specRequiredSet m (Wizard.run actions).quoteForm = true)
    ∧ ((Wizard.run actions).currentStep = 4 →
        ∃ s p k,
          (quoteNextClick (Wizard.run actions)).1.quoteData
            = ⟨some s, some p, some k, (Wizard.run actions).quoteForm.extras⟩
          ∧ (quoteNextClick (Wizard.run actions)).2 = Outcome.result
          ∧ (quoteNextClick (Wizard.run actions)).1.resultVisible = true
          ∧ (quoteNextClick (Wizard.run actions)).1.quoteAmount
              = some (Math.round
                  (calculateQuote.subtotal s p k (Wizard.run actions).quoteForm.extras))
          ∧ 0 < calculateQuote (quoteNextClick (Wizard.run actions)).1.quoteData
          ∧ (quoteNextClick (Wizard.run actions)).1.quoteBreakdown.head?
              = some ⟨Label.serviceSize s (some p), LineValue.amount (specBasePrice s p)⟩) :=
  valid_result (Wizard.run actions) (valid_run actions)

/-- Witness of C14: after a service type is chosen and Next clicked the wizard is at
step 2 with the input of step 1 checked, and a run through the three choices reaches
step 4, where Next shows the result. -/
theorem validated_before_result_witness :
    specRequiredSet 1
        (Wizard.run [Action.chooseService ServiceType.refresh, Action.advance]).quoteForm = true
    ∧ (quoteNextClick (Wizard.run [Action.chooseService ServiceType.refresh, Action.advance,
        Action.chooseSize PropertySize.bed2, Action.advance,
        Action.choosePackage PackageLevel.turnkey, Action.advance,
        Action.setExtras ExtraKind.express true])).2 = Outcome.result :=
  ⟨(validated_before_result [Action.chooseService ServiceType.refresh, Action.advance]).1 1
      (by decide) (by decide),
    by
      obtain ⟨_, _, _, _, h, _⟩ :=
        (validated_before_result [Action.chooseService ServiceType.refresh, Action.advance,
          Action.chooseSize PropertySize.bed2, Action.advance,
          Action.choosePackage PackageLevel.turnkey, Action.advance,
          Action.setExtras ExtraKind.express true]).2 (by decide)
      exact h⟩

end Jessie
